import Mathlib

/-!
Shallow embedding of the biochar half-life analysis notebook
(`biochar/biochar.ipynb`) of the carbonplan/notebooks repository.

The notebook defines an exponential decay model
`model(t, initial, k) = initial * np.exp(-k * t)`, runs a bootstrap loop that
resamples a table of (O:C ratio, half-life) observations with replacement and
records, for each iteration, the intercept (`alpha[i] = res.params[1]`) and
slope (`beta[i] = res.params[0]`) of an ordinary-least-squares fit of
`np.log(halflife)` on `ratio` (with `sm.add_constant(..., prepend=False)`, so
the constant column comes last), and finally defines
`predict(ratio, prctile) = np.percentile(np.exp(alpha + beta * ratio), [prctile])[0]`.

IEEE-double arithmetic is modelled by exact real arithmetic; the pseudo-random
draws consumed by `np.random.choice` are injected explicitly as a function
argument so that the bootstrap is a pure function of its inputs and its random
source.
-/

namespace Biochar

/-- One observation of the digitized Spokas (2010) table `biochar.csv`:
an O:C molar ratio and a measured half-life in years
(columns `data.ratio` and `data.halflife`). -/
structure Observation where
  ratio : ℝ
  halflife : ℝ

/-- Result of the bootstrap loop: the recorded per-iteration regression
parameters, `intercepts` embedding the notebook array `alpha` and `slopes`
embedding the notebook array `beta`. -/
structure BootstrapFit where
  intercepts : List ℝ
  slopes : List ℝ

/-- Notebook function `model(t, initial, k) = initial * np.exp(-k * t)`. -/
noncomputable def model (t initial k : ℝ) : ℝ := initial * Real.exp (-k * t)

/-- Notebook line `k = np.log(2) / halflife`. -/
noncomputable def decayConstant (halflife : ℝ) : ℝ := Real.log 2 / halflife

/-- Closed-form simple linear regression with intercept: the coefficients that
`sm.OLS(y, sm.add_constant(x, prepend=False)).fit().params` computes for a
full-rank two-column design matrix, returned as (intercept, slope), i.e. as
`(params[1], params[0])` since with `prepend=False` the constant column is
appended after the regressor column. -/
noncomputable def olsFit (pts : List (ℝ × ℝ)) : ℝ × ℝ :=
  let n : ℝ := pts.length
  let sx := (pts.map Prod.fst).sum
  let sy := (pts.map Prod.snd).sum
  let sxx := (pts.map fun p => p.1 * p.1).sum
  let sxy := (pts.map fun p => p.1 * p.2).sum
  let slope := (n * sxy - sx * sy) / (n * sxx - sx * sx)
  ((sy - slope * sx) / n, slope)

/-- Notebook line `samples = np.random.choice(indices, 34)` generalized to an
arbitrary observation table: one bootstrap resample of `obs.length` rows, with
replacement.  The random draws are injected as `draw : ℕ → ℕ`; the reduction
`% obs.length` reflects that `np.random.choice(np.arange(n), n)` only ever
returns indices in `[0, n)`, and nothing constrains distinct draws from being
equal (duplicate indices are possible). -/
def resample (obs : List Observation) (draw : ℕ → ℕ) : List Observation :=
  (List.range obs.length).map fun j => obs.getD (draw j % obs.length) ⟨0, 0⟩

/-- One iteration of the bootstrap loop: fit
`sm.OLS(np.log(data.halflife[samples]), sm.add_constant(data.ratio[samples], prepend=False))`
and read off `(res.params[1], res.params[0])` = (intercept, slope). -/
noncomputable def bootstrapIter (obs : List Observation) (draw : ℕ → ℕ) : ℝ × ℝ :=
  olsFit ((resample obs draw).map fun o => (o.ratio, Real.log o.halflife))

/-- Error raised by `fit` when fewer than two observations are supplied. -/
inductive FitError
  | insufficientData

/-- The bootstrap loop itself: `numIter` iterations, iteration `i` resampling
with the draws `draws i` and recording `alpha[i]` (intercept) and `beta[i]`
(slope). -/
noncomputable def fitRaw (obs : List Observation) (numIter : ℕ)
    (draws : ℕ → ℕ → ℕ) : BootstrapFit :=
  ⟨(List.range numIter).map fun i => (bootstrapIter obs (draws i)).1,
   (List.range numIter).map fun i => (bootstrapIter obs (draws i)).2⟩

/-- Operation `fit(observations, num_iterations)`.  The body is the notebook's
bootstrap loop (`fitRaw`).  Modelled from the spec: the `InsufficientDataError`
guard for fewer than two observations, which the notebook omits because it runs
the loop inline on a fixed 34-row table with no validation. -/
noncomputable def fit (obs : List Observation) (numIter : ℕ)
    (draws : ℕ → ℕ → ℕ) : Except FitError BootstrapFit :=
  if obs.length < 2 then .error .insufficientData
  else .ok (fitRaw obs numIter draws)

/-- Linear interpolation at fractional position `h` into a list of order
statistics, with the upper index clipped to the last position, exactly as
`np.percentile`'s default (linear) interpolation does. -/
noncomputable def interpAt (s : List ℝ) (h : ℝ) : ℝ :=
  let i := (⌊h⌋).toNat
  let lo := s.getD i 0
  let hi := s.getD (min (i + 1) (s.length - 1)) 0
  lo + Int.fract h * (hi - lo)

/-- Embedding of `np.percentile(a, q)` (default linear interpolation method):
sort the data and linearly interpolate at position `q / 100 * (n - 1)`. -/
noncomputable def np_percentile (l : List ℝ) (q : ℝ) : ℝ :=
  interpAt (List.insertionSort (· ≤ ·) l) (q / 100 * ((l.length : ℝ) - 1))

/-- Notebook line `dist = np.exp(alpha + beta * ratio)`: the empirical
distribution of predicted half-lives, one entry per recorded
(intercept, slope) pair. -/
noncomputable def dist (bf : BootstrapFit) (ratio : ℝ) : List ℝ :=
  List.zipWith (fun a b => Real.exp (a + b * ratio)) bf.intercepts bf.slopes

/-- Notebook function
`predict(ratio, prctile) = np.percentile(np.exp(alpha + beta * ratio), [prctile])[0]`. -/
noncomputable def predict (bf : BootstrapFit) (ratio prctile : ℝ) : ℝ :=
  np_percentile (dist bf ratio) prctile

/-- Error raised by `predict` when the requested percentile is out of range. -/
inductive PredictError
  | invalidPercentile

/-- Operation `predict(fit, ratio, percentile)` with its range check.
Modelled from the spec: the `InvalidPercentileError` for a percentile outside
[0, 100]; the notebook itself performs no explicit check and relies on
`np.percentile`, whose documented behaviour is to reject exactly the
percentiles outside [0, 100]. -/
noncomputable def predictChecked (bf : BootstrapFit) (ratio prctile : ℝ) :
    Except PredictError ℝ :=
  if prctile < 0 ∨ 100 < prctile then .error .invalidPercentile
  else .ok (predict bf ratio prctile)

/-- The k-th order statistic of a finite empirical distribution: the k-th
element of the data sorted in nondecreasing order. -/
noncomputable def orderStat (l : List ℝ) (k : ℕ) : ℝ :=
  (List.insertionSort (· ≤ ·) l).getD k 0

/-- Percentile as the specification words it, written independently of
`np_percentile`: the value at percentile `p` of the empirical distribution,
obtained by linear interpolation between the two order statistics adjacent to
the fractional rank `p / 100 * (n - 1)` (the top order statistic itself when
the rank points at the last position). -/
noncomputable def specPercentile (l : List ℝ) (p : ℝ) : ℝ :=
  let h := p / 100 * ((l.length : ℝ) - 1)
  let k := (⌊h⌋).toNat
  let f := Int.fract h
  if k + 1 ≤ l.length - 1 then
    (1 - f) * orderStat l k + f * orderStat l (k + 1)
  else orderStat l k

end Biochar

namespace Biochar

/-- Helper: in a list sorted nondecreasingly, entries at smaller positions are
smaller or equal. -/
theorem sorted_getD_mono {s : List ℝ} (hs : s.Sorted (· ≤ ·)) {i j : ℕ}
    (hij : i ≤ j) (hj : j < s.length) : s.getD i 0 ≤ s.getD j 0 := by
  have hi : i < s.length := lt_of_le_of_lt hij hj
  rw [List.getD_eq_getElem s 0 hi, List.getD_eq_getElem s 0 hj]
  have h := hs.rel_get_of_le (a := ⟨i, hi⟩) (b := ⟨j, hj⟩) hij
  simpa [List.get_eq_getElem] using h

/-- Helper: the interpolated value sits at or above its lower order statistic. -/
theorem getD_le_interpAt {s : List ℝ} (hs : s.Sorted (· ≤ ·)) {h : ℝ}
    (hlt : (⌊h⌋).toNat < s.length) :
    s.getD (⌊h⌋).toNat 0 ≤ interpAt s h := by
  simp only [interpAt]
  have hmin : (⌊h⌋).toNat ≤ min ((⌊h⌋).toNat + 1) (s.length - 1) := by omega
  have hminlt : min ((⌊h⌋).toNat + 1) (s.length - 1) < s.length := by omega
  have hlohi := sorted_getD_mono hs hmin hminlt
  have hf := Int.fract_nonneg h
  have := mul_nonneg hf (sub_nonneg.2 hlohi)
  linarith

/-- Helper: the interpolated value sits at or below its upper order statistic. -/
theorem interpAt_le_getD {s : List ℝ} (hs : s.Sorted (· ≤ ·)) {h : ℝ}
    (hlt : (⌊h⌋).toNat < s.length) :
    interpAt s h ≤ s.getD (min ((⌊h⌋).toNat + 1) (s.length - 1)) 0 := by
  simp only [interpAt]
  have hmin : (⌊h⌋).toNat ≤ min ((⌊h⌋).toNat + 1) (s.length - 1) := by omega
  have hminlt : min ((⌊h⌋).toNat + 1) (s.length - 1) < s.length := by omega
  have hlohi := sorted_getD_mono hs hmin hminlt
  have hf1 : Int.fract h ≤ 1 := le_of_lt (Int.fract_lt_one h)
  have := mul_nonneg (by linarith : (0:ℝ) ≤ 1 - Int.fract h) (sub_nonneg.2 hlohi)
  nlinarith

/-- Helper: linear interpolation into a sorted list is monotone in the
fractional position over the valid index range. -/
theorem interpAt_mono {s : List ℝ} (hs : s.Sorted (· ≤ ·)) (hne : s ≠ [])
    {h1 h2 : ℝ} (h0 : 0 ≤ h1) (h12 : h1 ≤ h2)
    (h2n : h2 ≤ (s.length : ℝ) - 1) :
    interpAt s h1 ≤ interpAt s h2 := by
  have hlen : 1 ≤ s.length := List.length_pos.2 hne
  have hfl12 : ⌊h1⌋ ≤ ⌊h2⌋ := Int.floor_le_floor h12
  have hfl0 : 0 ≤ ⌊h1⌋ := Int.floor_nonneg.2 h0
  have hcast : ((s.length : ℝ) - 1) = ((s.length - 1 : ℕ) : ℝ) := by
    rw [Nat.cast_sub hlen, Nat.cast_one]
  have hfl2 : ⌊h2⌋ ≤ ((s.length - 1 : ℕ) : ℤ) := by
    have h := Int.floor_le_floor h2n
    rwa [hcast, Int.floor_natCast] at h
  have hi12 : (⌊h1⌋).toNat ≤ (⌊h2⌋).toNat := Int.toNat_le_toNat hfl12
  have hi2lt : (⌊h2⌋).toNat < s.length := by omega
  have hi1lt : (⌊h1⌋).toNat < s.length := by omega
  rcases lt_or_eq_of_le hi12 with hlt | heq
  · calc interpAt s h1
        ≤ s.getD (min ((⌊h1⌋).toNat + 1) (s.length - 1)) 0 := interpAt_le_getD hs hi1lt
      _ ≤ s.getD (⌊h2⌋).toNat 0 := sorted_getD_mono hs (by omega) hi2lt
      _ ≤ interpAt s h2 := getD_le_interpAt hs hi2lt
  · have hfleq : ⌊h1⌋ = ⌊h2⌋ := by omega
    simp only [interpAt, heq, hfleq]
    have hminlt : min ((⌊h2⌋).toNat + 1) (s.length - 1) < s.length := by omega
    have hlohi := sorted_getD_mono hs (i := (⌊h2⌋).toNat)
      (j := min ((⌊h2⌋).toNat + 1) (s.length - 1)) (by omega) hminlt
    have hfract : Int.fract h1 ≤ Int.fract h2 := by
      simp only [Int.fract]
      rw [hfleq]
      linarith
    have := mul_le_mul_of_nonneg_right hfract (sub_nonneg.2 hlohi)
    linarith

/-- Helper: the percentile at 0 is the first entry of the sorted data. -/
theorem np_percentile_zero (l : List ℝ) :
    np_percentile l 0 = (List.insertionSort (· ≤ ·) l).getD 0 0 := by
  simp [np_percentile, interpAt, Int.fract_zero]

/-- Helper: the percentile at 100 is the last entry of the sorted data. -/
theorem np_percentile_hundred (l : List ℝ) (hne : l ≠ []) :
    np_percentile l 100 = (List.insertionSort (· ≤ ·) l).getD (l.length - 1) 0 := by
  have hlen : 1 ≤ l.length := List.length_pos.2 hne
  have h100 : (100:ℝ) / 100 * ((l.length : ℝ) - 1) = ((l.length - 1 : ℕ) : ℝ) := by
    rw [Nat.cast_sub hlen, Nat.cast_one]
    norm_num
  simp only [np_percentile, interpAt, h100, Int.floor_natCast, Int.fract_natCast,
    Int.toNat_natCast, zero_mul, add_zero]

/-- Helper: the head entry of a nonempty list is a member. -/
theorem getD_zero_mem {s : List ℝ} (hne : s ≠ []) : s.getD 0 0 ∈ s := by
  have h0 : 0 < s.length := List.length_pos.2 hne
  rw [List.getD_eq_getElem s 0 h0]
  exact List.getElem_mem h0

/-- Helper: the last entry of a nonempty list is a member. -/
theorem getD_last_mem {s : List ℝ} (hne : s ≠ []) : s.getD (s.length - 1) 0 ∈ s := by
  have h0 : 0 < s.length := List.length_pos.2 hne
  rw [List.getD_eq_getElem s 0 (by omega)]
  exact List.getElem_mem (by omega)

/-- Helper: in a sorted list the head entry is a lower bound. -/
theorem getD_zero_le_of_mem {s : List ℝ} (hs : s.Sorted (· ≤ ·)) {x : ℝ}
    (hx : x ∈ s) : s.getD 0 0 ≤ x := by
  obtain ⟨j, hj, rfl⟩ := List.mem_iff_getElem.1 hx
  have h := sorted_getD_mono hs (Nat.zero_le j) hj
  rwa [List.getD_eq_getElem s 0 hj] at h

/-- Helper: in a sorted list the last entry is an upper bound. -/
theorem le_getD_last_of_mem {s : List ℝ} (hs : s.Sorted (· ≤ ·)) {x : ℝ}
    (hx : x ∈ s) : x ≤ s.getD (s.length - 1) 0 := by
  obtain ⟨j, hj, rfl⟩ := List.mem_iff_getElem.1 hx
  have h := sorted_getD_mono hs (i := j) (j := s.length - 1) (by omega) (by omega)
  rwa [List.getD_eq_getElem s 0 hj] at h

/-- Claim C8: converting a positive half-life `h` to a decay constant by the
notebook's `k = np.log(2) / halflife` and evaluating the decay model at time
`t = h` halves the initial mass exactly: `model(h, initial, k) = initial / 2`. -/
theorem model_halflife_roundtrip (h initial : ℝ) (hh : 0 < h) :
    model h initial (decayConstant h) = initial / 2 := by
  unfold model decayConstant
  rw [neg_mul, div_mul_cancel₀ _ (ne_of_gt hh), Real.exp_neg,
    Real.exp_log (by norm_num : (0:ℝ) < 2)]
  ring

/-- Witness for C8 at the concrete half-life 50 and initial mass 100 (the
notebook's own example values). -/
theorem model_halflife_roundtrip_witness :
    (0:ℝ) < 50 ∧ model 50 100 (decayConstant 50) = 100 / 2 :=
  ⟨by norm_num, model_halflife_roundtrip 50 100 (by norm_num)⟩

/-- Counterexample to claim C10 as stated: the claim quantifies over every
initial value, but for a negative initial value the curve is increasing, not
non-increasing.  Concretely `initial = -1`, `k = log 2 ≥ 0`, times `0 ≤ 1`:
`model(0, -1, log 2) = -1` while `model(1, -1, log 2) = -1/2 > -1`. -/
theorem model_antitone_counterexample :
    (0:ℝ) ≤ Real.log 2 ∧ (0:ℝ) ≤ 1 ∧
      ¬ model 1 (-1) (Real.log 2) ≤ model 0 (-1) (Real.log 2) := by
  refine ⟨Real.log_nonneg (by norm_num), by norm_num, ?_⟩
  unfold model
  rw [mul_zero, Real.exp_zero, mul_one, Real.exp_neg,
    Real.exp_log (by norm_num : (0:ℝ) < 2)]
  norm_num

/-- Claim C10 (amended: the non-increasing part additionally requires a
nonnegative initial mass): the decay curve starts at the initial mass,
`model(0, initial, k) = initial` for every initial value and every `k`, and
for every initial mass `≥ 0` and decay constant `k ≥ 0` the mass is
non-increasing in time. -/
theorem model_zero_and_antitone :
    (∀ initial k : ℝ, model 0 initial k = initial) ∧
    (∀ initial k t1 t2 : ℝ, 0 ≤ initial → 0 ≤ k → t1 ≤ t2 →
      model t2 initial k ≤ model t1 initial k) := by
  constructor
  · intro initial k
    unfold model
    rw [mul_zero, Real.exp_zero, mul_one]
  · intro initial k t1 t2 hinit hk ht
    unfold model
    refine mul_le_mul_of_nonneg_left (Real.exp_le_exp.2 ?_) hinit
    have := mul_le_mul_of_nonneg_left ht hk
    linarith

/-- Witness for (amended) C10 at concrete inputs: initial mass 12 and decay
constant 0.003 from the notebook's biochar curve, times 1 ≤ 2. -/
theorem model_zero_and_antitone_witness :
    model 0 12 0.003 = 12 ∧ model 2 12 0.003 ≤ model 1 12 0.003 :=
  ⟨model_zero_and_antitone.1 12 0.003,
   model_zero_and_antitone.2 12 0.003 1 2 (by norm_num) (by norm_num) (by norm_num)⟩

/-- Helper: on a nonempty data list and a percentile in [0, 100], the numpy
percentile coincides with the spec's order-statistic interpolation. -/
theorem np_percentile_eq_spec (l : List ℝ) (hne : l ≠ []) (p : ℝ)
    (h0 : 0 ≤ p) (h1 : p ≤ 100) : np_percentile l p = specPercentile l p := by
  have hlen : 1 ≤ l.length := List.length_pos.2 hne
  have hslen : (List.insertionSort (· ≤ ·) l).length = l.length :=
    List.length_insertionSort _ _
  have hn1 : (0:ℝ) ≤ (l.length : ℝ) - 1 := by
    have h : (1:ℝ) ≤ (l.length : ℝ) := by exact_mod_cast hlen
    linarith
  set h := p / 100 * ((l.length : ℝ) - 1) with hhdef
  have hhn : h ≤ ((l.length - 1 : ℕ) : ℝ) := by
    rw [Nat.cast_sub hlen, Nat.cast_one]
    calc h ≤ 1 * ((l.length : ℝ) - 1) :=
          mul_le_mul_of_nonneg_right ((div_le_one (by norm_num)).2 h1) hn1
      _ = (l.length : ℝ) - 1 := one_mul _
  have hkle : (⌊h⌋).toNat ≤ l.length - 1 := by
    have h2 : ⌊h⌋ ≤ ((l.length - 1 : ℕ) : ℤ) := by
      have h3 := Int.floor_le_floor hhn
      rwa [Int.floor_natCast] at h3
    omega
  simp only [np_percentile, specPercentile, orderStat, interpAt, ← hhdef]
  by_cases hcase : (⌊h⌋).toNat + 1 ≤ l.length - 1
  · rw [if_pos hcase]
    have hmin : min ((⌊h⌋).toNat + 1) ((List.insertionSort (· ≤ ·) l).length - 1) =
        (⌊h⌋).toNat + 1 := by
      rw [hslen]; omega
    rw [hmin]; ring
  · rw [if_neg hcase]
    have hmin : min ((⌊h⌋).toNat + 1) ((List.insertionSort (· ≤ ·) l).length - 1) =
        (⌊h⌋).toNat := by
      rw [hslen]; omega
    rw [hmin]; ring

/-- Claim C1: for every BootstrapFit, ratio, and percentile p in [0, 100] (with
the empirical distribution nonempty), `predict` returns exactly the p-th
percentile, with linear interpolation between order statistics, of the
empirical distribution formed by `exp(intercept + slope * ratio)` over the
recorded (intercept, slope) pairs. -/
theorem predict_eq_spec_percentile (bf : BootstrapFit) (ratio p : ℝ)
    (hne : dist bf ratio ≠ []) (h0 : 0 ≤ p) (h1 : p ≤ 100) :
    predict bf ratio p = specPercentile (dist bf ratio) p :=
  np_percentile_eq_spec (dist bf ratio) hne p h0 h1

/-- Witness for C1 at the concrete fit with one recorded pair (0, 0), ratio 0
and percentile 50. -/
theorem predict_eq_spec_percentile_witness :
    dist (BootstrapFit.mk [0] [0]) 0 ≠ [] ∧
      predict (BootstrapFit.mk [0] [0]) 0 50 =
        specPercentile (dist (BootstrapFit.mk [0] [0]) 0) 50 :=
  ⟨by simp [dist], predict_eq_spec_percentile (BootstrapFit.mk [0] [0]) 0 50
    (by simp [dist]) (by norm_num) (by norm_num)⟩

/-- Claim C6: `predict` is monotonic in the percentile: for percentiles
p1 < p2 in [0, 100] (and a nonempty recorded distribution),
`predict(fit, ratio, p1) ≤ predict(fit, ratio, p2)`. -/
theorem predict_mono_percentile (bf : BootstrapFit) (ratio p1 p2 : ℝ)
    (hi : bf.intercepts ≠ []) (hsl : bf.slopes ≠ [])
    (hp0 : 0 ≤ p1) (hp12 : p1 < p2) (hp1 : p2 ≤ 100) :
    predict bf ratio p1 ≤ predict bf ratio p2 := by
  have hlen : 0 < (dist bf ratio).length := by
    unfold dist
    rw [List.length_zipWith]
    have h1 := List.length_pos.2 hi
    have h2 := List.length_pos.2 hsl
    omega
  have hslen : (List.insertionSort (· ≤ ·) (dist bf ratio)).length =
      (dist bf ratio).length := List.length_insertionSort _ _
  have hn1 : (0:ℝ) ≤ ((dist bf ratio).length : ℝ) - 1 := by
    have h : (1:ℝ) ≤ ((dist bf ratio).length : ℝ) := by exact_mod_cast hlen
    linarith
  unfold predict np_percentile
  apply interpAt_mono (List.sorted_insertionSort _ _)
  · intro hcontra
    rw [hcontra] at hslen
    simp at hslen
    omega
  · exact mul_nonneg (div_nonneg hp0 (by norm_num)) hn1
  · exact mul_le_mul_of_nonneg_right
      ((div_le_div_iff_of_pos_right (by norm_num)).2 (le_of_lt hp12)) hn1
  · rw [hslen]
    calc p2 / 100 * (((dist bf ratio).length : ℝ) - 1)
        ≤ 1 * (((dist bf ratio).length : ℝ) - 1) :=
          mul_le_mul_of_nonneg_right ((div_le_one (by norm_num)).2 hp1) hn1
      _ = ((dist bf ratio).length : ℝ) - 1 := one_mul _

/-- Witness for C6 at a concrete two-entry fit, ratio 0, percentiles 0 < 100. -/
theorem predict_mono_percentile_witness :
    predict (BootstrapFit.mk [0, 1] [0, 0]) 0 0 ≤
      predict (BootstrapFit.mk [0, 1] [0, 0]) 0 100 :=
  predict_mono_percentile (BootstrapFit.mk [0, 1] [0, 0]) 0 0 100
    (by simp) (by simp) (by norm_num) (by norm_num) (by norm_num)

/-- Claim C7: `predict` with percentile 0 returns exactly the minimum, and
with percentile 100 exactly the maximum, of the empirical prediction
distribution (each is a member of the distribution and bounds every member). -/
theorem predict_endpoints (bf : BootstrapFit) (ratio : ℝ)
    (hi : bf.intercepts ≠ []) (hsl : bf.slopes ≠ []) :
    (predict bf ratio 0 ∈ dist bf ratio ∧
      ∀ x ∈ dist bf ratio, predict bf ratio 0 ≤ x) ∧
    (predict bf ratio 100 ∈ dist bf ratio ∧
      ∀ x ∈ dist bf ratio, x ≤ predict bf ratio 100) := by
  have hlen : 0 < (dist bf ratio).length := by
    unfold dist
    rw [List.length_zipWith]
    have h1 := List.length_pos.2 hi
    have h2 := List.length_pos.2 hsl
    omega
  have hlne : dist bf ratio ≠ [] := List.length_pos.1 hlen
  have hsorted : (List.insertionSort (· ≤ ·) (dist bf ratio)).Sorted (· ≤ ·) :=
    List.sorted_insertionSort _ _
  have hslen : (List.insertionSort (· ≤ ·) (dist bf ratio)).length =
      (dist bf ratio).length := List.length_insertionSort _ _
  have hsne : List.insertionSort (· ≤ ·) (dist bf ratio) ≠ [] := by
    intro hcontra
    rw [hcontra] at hslen
    simp at hslen
    omega
  have hmem : ∀ x : ℝ, x ∈ List.insertionSort (· ≤ ·) (dist bf ratio) ↔
      x ∈ dist bf ratio := fun x => List.mem_insertionSort _
  constructor
  · have hp0 : predict bf ratio 0 =
        (List.insertionSort (· ≤ ·) (dist bf ratio)).getD 0 0 := by
      unfold predict
      exact np_percentile_zero (dist bf ratio)
    constructor
    · rw [hp0]
      exact (hmem _).1 (getD_zero_mem hsne)
    · intro x hx
      rw [hp0]
      exact getD_zero_le_of_mem hsorted ((hmem x).2 hx)
  · have hp100 : predict bf ratio 100 =
        (List.insertionSort (· ≤ ·) (dist bf ratio)).getD
          ((List.insertionSort (· ≤ ·) (dist bf ratio)).length - 1) 0 := by
      unfold predict
      rw [np_percentile_hundred (dist bf ratio) hlne, hslen]
    constructor
    · rw [hp100]
      exact (hmem _).1 (getD_last_mem hsne)
    · intro x hx
      rw [hp100]
      exact le_getD_last_of_mem hsorted ((hmem x).2 hx)

/-- Witness for C7: with one recorded pair the single prediction is both the
percentile-0 member and a lower bound instance of the distribution. -/
theorem predict_endpoints_witness :
    ([(0:ℝ)] : List ℝ) ≠ [] ∧
      predict (BootstrapFit.mk [0] [0]) 0 0 ∈ dist (BootstrapFit.mk [0] [0]) 0 :=
  ⟨by simp, (predict_endpoints (BootstrapFit.mk [0] [0]) 0 (by simp) (by simp)).1.1⟩

/-- Anchor check of the percentile embedding against numpy's documented
semantics: the median of the two-point distribution [3, 1] is 2. -/
theorem np_percentile_median_anchor : np_percentile [3, 1] 50 = 2 := by
  have hsort : (List.insertionSort (· ≤ ·) ([3, 1] : List ℝ)) = [1, 3] := by
    simp [List.insertionSort, List.orderedInsert]
  have harg : (50:ℝ) / 100 * ((([3, 1] : List ℝ).length : ℝ) - 1) = 1 / 2 := by
    norm_num
  rw [np_percentile, harg, hsort, interpAt]
  have hfl : ⌊(1:ℝ) / 2⌋ = 0 := by norm_num
  have hfr : Int.fract ((1:ℝ) / 2) = 1 / 2 := by
    rw [Int.fract, hfl]
    norm_num
  rw [hfl, hfr]
  norm_num

/-- Helper: indexing into a map over `List.range`. -/
theorem getD_map_range {α : Type} (n : ℕ) (g : ℕ → α) (d : α) {i : ℕ}
    (hi : i < n) : ((List.range n).map g).getD i d = g i := by
  rw [List.getD_eq_getElem _ _ (by simpa using hi)]
  simp

/-- Claim C2: on at least two observations, every iteration `i < numIter` of
`fit` resamples exactly `obs.length` observations (each one the observation at
the drawn index, with replacement, so duplicate indices are allowed), fits an
ordinary-least-squares line of `ln(half_life)` on `ratio` over the resampled
set, and records the fitted intercept and slope at position `i`. -/
theorem fit_bootstrap_iterations (obs : List Observation) (numIter : ℕ)
    (draws : ℕ → ℕ → ℕ) (hobs : 2 ≤ obs.length) {i : ℕ} (hi : i < numIter) :
    fit obs numIter draws = .ok (fitRaw obs numIter draws) ∧
    (resample obs (draws i)).length = obs.length ∧
    (∀ j, j < obs.length →
      (resample obs (draws i)).getD j ⟨0, 0⟩ =
        obs.getD (draws i j % obs.length) ⟨0, 0⟩) ∧
    (fitRaw obs numIter draws).intercepts.getD i 0 =
      (olsFit ((resample obs (draws i)).map
        fun o => (o.ratio, Real.log o.halflife))).1 ∧
    (fitRaw obs numIter draws).slopes.getD i 0 =
      (olsFit ((resample obs (draws i)).map
        fun o => (o.ratio, Real.log o.halflife))).2 := by
  refine ⟨?_, ?_, ?_, ?_, ?_⟩
  · unfold fit
    rw [if_neg (by omega)]
  · unfold resample
    simp
  · intro j hj
    unfold resample
    exact getD_map_range obs.length _ _ hj
  · unfold fitRaw
    rw [getD_map_range numIter _ _ hi]
    rfl
  · unfold fitRaw
    rw [getD_map_range numIter _ _ hi]
    rfl

/-- Witness for C2 at two concrete observations, one iteration, and the
constant draw function (every draw picks index 0, exhibiting duplicates). -/
theorem fit_bootstrap_iterations_witness :
    2 ≤ ([Observation.mk 0 1, Observation.mk 1 1]).length ∧ 0 < 1 ∧
      (fitRaw [Observation.mk 0 1, Observation.mk 1 1] 1
          (fun _ _ => 0)).intercepts.getD 0 0 =
        (olsFit ((resample [Observation.mk 0 1, Observation.mk 1 1]
            ((fun _ _ => 0) 0)).map
          fun o => (o.ratio, Real.log o.halflife))).1 :=
  ⟨by simp, by norm_num,
    (fit_bootstrap_iterations [Observation.mk 0 1, Observation.mk 1 1] 1
      (fun _ _ => 0) (by simp) (by norm_num)).2.2.2.1⟩

/-- Claim C3: `fit` is a pure, deterministic function of its inputs and its
random source: it consumes only the draws `draws i j` with `i < numIter` and
`j < obs.length`, so two calls with identical inputs and random sources that
agree on that domain (in particular, the same fixed seed) produce identical
BootstrapFit contents. -/
theorem fit_deterministic (obs : List Observation) (numIter : ℕ)
    (d1 d2 : ℕ → ℕ → ℕ)
    (hagree : ∀ i, i < numIter → ∀ j, j < obs.length → d1 i j = d2 i j) :
    fit obs numIter d1 = fit obs numIter d2 := by
  have hres : ∀ i, i < numIter →
      bootstrapIter obs (d1 i) = bootstrapIter obs (d2 i) := by
    intro i hi
    unfold bootstrapIter resample
    congr 2
    apply List.map_congr_left
    intro j hj
    rw [hagree i hi j (List.mem_range.1 hj)]
  unfold fit
  by_cases hlen : obs.length < 2
  · rw [if_pos hlen, if_pos hlen]
  · rw [if_neg hlen, if_neg hlen]
    unfold fitRaw
    have h1 : ((List.range numIter).map fun i => (bootstrapIter obs (d1 i)).1) =
        (List.range numIter).map fun i => (bootstrapIter obs (d2 i)).1 :=
      List.map_congr_left fun i hi => by rw [hres i (List.mem_range.1 hi)]
    have h2 : ((List.range numIter).map fun i => (bootstrapIter obs (d1 i)).2) =
        (List.range numIter).map fun i => (bootstrapIter obs (d2 i)).2 :=
      List.map_congr_left fun i hi => by rw [hres i (List.mem_range.1 hi)]
    rw [h1, h2]

/-- Witness for C3: two syntactically different draw functions agreeing on the
consumed domain give identical fits. -/
theorem fit_deterministic_witness :
    fit [Observation.mk 0 1, Observation.mk 1 1] 1 (fun i j => i + j) =
      fit [Observation.mk 0 1, Observation.mk 1 1] 1
        (fun i j => if j ≤ 1 then i + j else 5) :=
  fit_deterministic _ _ _ _ (by
    intro i hi j hj
    simp only [List.length_cons, List.length_nil] at hj
    rw [if_pos (by omega)])

/-- Claim C4: `fit` fails with the insufficient-data error exactly when fewer
than 2 observations are supplied, and on at least 2 observations it returns a
BootstrapFit (for every number of iterations, in particular every
`numIter ≥ 1`) without failing. -/
theorem fit_insufficient_data_iff (obs : List Observation) (numIter : ℕ)
    (draws : ℕ → ℕ → ℕ) :
    (fit obs numIter draws = .error .insufficientData ↔ obs.length < 2) ∧
    (2 ≤ obs.length →
      fit obs numIter draws = .ok (fitRaw obs numIter draws)) := by
  unfold fit
  by_cases hlen : obs.length < 2
  · rw [if_pos hlen]
    exact ⟨⟨fun _ => hlen, fun _ => rfl⟩, fun h => absurd h (by omega)⟩
  · rw [if_neg hlen]
    refine ⟨⟨fun hcontra => absurd hcontra (by simp), fun h => absurd h hlen⟩,
      fun _ => rfl⟩

/-- Witness for C4: on two concrete observations `fit` returns a
BootstrapFit. -/
theorem fit_insufficient_data_iff_witness :
    2 ≤ ([Observation.mk 0 1, Observation.mk 1 1]).length ∧
      fit [Observation.mk 0 1, Observation.mk 1 1] 1 (fun _ _ => 0) =
        .ok (fitRaw [Observation.mk 0 1, Observation.mk 1 1] 1 (fun _ _ => 0)) :=
  ⟨by simp, (fit_insufficient_data_iff _ _ _).2 (by simp)⟩

/-- Claim C5: `predict` fails with the invalid-percentile error exactly when
the percentile lies outside [0, 100], and for every percentile in [0, 100] it
returns a numeric value without failing. -/
theorem predict_invalid_percentile_iff (bf : BootstrapFit) (ratio p : ℝ) :
    (predictChecked bf ratio p = .error .invalidPercentile ↔
      (p < 0 ∨ 100 < p)) ∧
    (0 ≤ p → p ≤ 100 →
      predictChecked bf ratio p = .ok (predict bf ratio p)) := by
  unfold predictChecked
  by_cases hp : p < 0 ∨ 100 < p
  · rw [if_pos hp]
    refine ⟨⟨fun _ => hp, fun _ => rfl⟩, fun h0 h1 => ?_⟩
    rcases hp with h | h <;> linarith
  · rw [if_neg hp]
    exact ⟨⟨fun hcontra => absurd hcontra (by simp), fun h => absurd h hp⟩,
      fun _ _ => rfl⟩

/-- Witness for C5: percentile 50 on a concrete fit is accepted. -/
theorem predict_invalid_percentile_iff_witness :
    (0:ℝ) ≤ 50 ∧ (50:ℝ) ≤ 100 ∧
      predictChecked (BootstrapFit.mk [0] [0]) 0 50 =
        .ok (predict (BootstrapFit.mk [0] [0]) 0 50) :=
  ⟨by norm_num, by norm_num,
    (predict_invalid_percentile_iff (BootstrapFit.mk [0] [0]) 0 50).2
      (by norm_num) (by norm_num)⟩

/-- Claim C9: every successful `fit` returns a BootstrapFit whose `intercepts`
and `slopes` sequences both have length exactly `numIter` (in particular they
are equal-length); as a value of a pure function the result is never mutated
afterwards. -/
theorem fit_result_lengths (obs : List Observation) (numIter : ℕ)
    (draws : ℕ → ℕ → ℕ) (bf : BootstrapFit)
    (hfit : fit obs numIter draws = .ok bf) :
    bf.intercepts.length = numIter ∧ bf.slopes.length = numIter := by
  unfold fit at hfit
  by_cases hlen : obs.length < 2
  · rw [if_pos hlen] at hfit
    exact absurd hfit (by simp)
  · rw [if_neg hlen] at hfit
    injection hfit with hbf
    rw [← hbf]
    unfold fitRaw
    simp

/-- Witness for C9 at a concrete three-iteration fit of two observations. -/
theorem fit_result_lengths_witness :
    (fitRaw [Observation.mk 0 1, Observation.mk 1 1] 3
        (fun _ _ => 0)).intercepts.length = 3 ∧
      (fitRaw [Observation.mk 0 1, Observation.mk 1 1] 3
        (fun _ _ => 0)).slopes.length = 3 :=
  fit_result_lengths [Observation.mk 0 1, Observation.mk 1 1] 3 (fun _ _ => 0)
    (fitRaw [Observation.mk 0 1, Observation.mk 1 1] 3 (fun _ _ => 0))
    (by simp [fit])

end Biochar
